import Mathlib

/-!
Verification of the decoding/transport core of a music player, as a shallow
embedding in Lean.

Conventions used throughout:
* Rust `f32`/`f64` sample arithmetic is embedded as exact rational arithmetic
  (`ℚ`); every float operation appearing in the sources (division, comparison,
  clamp, truncating cast) is treated as exact.
* Rust strings are embedded as `List Char`.
* `u64`/`usize` values are embedded as `Nat`, with an explicit `% 2 ^ 64`
  at the operations whose overflow behaviour matters, and with Rust's
  `saturating_sub`/`saturating_add` written out explicitly (`Nat`
  subtraction is already saturating).
* Fallible external calls (file open, codec init) are embedded as boolean
  outcome parameters; packet readers are embedded as lists of read outcomes.
-/

namespace MusicPlayer

/-! ## Display renderer: progress bar (src/audio/display.rs)

`DisplayThread::format_progress_bar(position, total, width)` computes
`progress = (position as f64 / total as f64 * width as f64) as usize`
(a truncating cast, embedded as `Int.floor` since the quotient is
nonnegative) and then builds
`'[' ++ "=" * progress ++ "-" * (width - progress) ++ ']'`.
The subtraction `width - progress` is `usize` subtraction, which has no
defined useful result when `progress > width` (overflow panic in a debug
build, an astronomically long repeat count in a release build); that case is
embedded as `none`. -/

def format_progress_bar (position total : Nat) (width : Nat) : Option (List Char) :=
  if total = 0 then some [] else
  let progress : Nat := (Int.floor ((position : ℚ) / (total : ℚ) * (width : ℚ))).toNat
  if progress ≤ width then
    some ('[' :: (List.replicate progress '=' ++ List.replicate (width - progress) '-') ++ [']'])
  else
    none

/-- Modelled from the spec's words, for comparison with the code: the spec
says the bar fills `round(position/total * w)` cells with the fill character,
clamped to `w`, and the remainder with the other character, and that a zero
total renders an empty bar. -/
def progress_bar_claimed (position total : Nat) (width : Nat) : List Char :=
  if total = 0 then [] else
  let filled : Nat := min (round ((position : ℚ) / (total : ℚ) * (width : ℚ))).toNat width
  '[' :: (List.replicate filled '=' ++ List.replicate (width - filled) '-') ++ [']']

theorem floor_59_100_10 : Int.floor ((59 : ℚ) / 100 * 10) = 5 := by
  rw [Int.floor_eq_iff] <;> norm_num

theorem round_59_100_10 : round ((59 : ℚ) / 100 * 10) = 6 := by
  rw [round_eq, Int.floor_eq_iff] <;> norm_num

/-- C4, counterexample: the code truncates the fill ratio while the claim
rounds it.  At `position = 59`, `total = 100`, `width = 10` the exact ratio is
`5.9`: the code fills `5` cells, the claimed formula fills `round 5.9 = 6`, so
the two bars differ. -/
theorem c4_progress_bar_counterexample :
    format_progress_bar 59 100 10 ≠ some (progress_bar_claimed 59 100 10) := by
  have hcode : format_progress_bar 59 100 10 =
      some ('[' :: (List.replicate 5 '=' ++ List.replicate 5 '-') ++ [']']) := by
    simp [format_progress_bar, floor_59_100_10]
  have hclaim : progress_bar_claimed 59 100 10 =
      '[' :: (List.replicate 6 '=' ++ List.replicate 4 '-') ++ [']'] := by
    simp [progress_bar_claimed, round_59_100_10]
  rw [hcode, hclaim]
  decide

theorem floor_le_width_of_le (position total width : Nat) (ht : total ≠ 0)
    (hp : position ≤ total) :
    (Int.floor ((position : ℚ) / (total : ℚ) * (width : ℚ))).toNat ≤ width := by
  have htpos : (0 : ℚ) < (total : ℚ) := by
    exact_mod_cast Nat.pos_of_ne_zero ht
  have hdiv : (position : ℚ) / (total : ℚ) ≤ 1 := by
    rw [div_le_one htpos]
    exact_mod_cast hp
  have hmul : (position : ℚ) / (total : ℚ) * (width : ℚ) ≤ (width : ℚ) := by
    calc (position : ℚ) / (total : ℚ) * (width : ℚ)
        ≤ 1 * (width : ℚ) := by
          apply mul_le_mul_of_nonneg_right hdiv (by positivity)
      _ = (width : ℚ) := one_mul _
  have hfloor : Int.floor ((position : ℚ) / (total : ℚ) * (width : ℚ)) ≤ (width : ℤ) := by
    have := Int.floor_le_floor hmul
    rwa [Int.floor_natCast] at this
  omega

/-- C4, amended: the code fills `floor(position/total * width)` cells (a
truncating `f64`-to-`usize` cast, not a rounding one), the remainder with
`'-'`; the fill count is not clamped, but whenever `position ≤ total` it
cannot exceed `width`, so the bar is well defined and is `'['` plus exactly
`width` characters plus `']'`; a zero total yields the empty string.  The two
spec examples hold as stated. -/
theorem c4_progress_bar_amended (position total width : Nat) (ht : total ≠ 0)
    (hp : position ≤ total) :
    (format_progress_bar position total width =
      some ('[' ::
        (List.replicate ((Int.floor ((position : ℚ) / (total : ℚ) * (width : ℚ))).toNat) '=' ++
         List.replicate
           (width - (Int.floor ((position : ℚ) / (total : ℚ) * (width : ℚ))).toNat) '-')
        ++ [']'])) ∧
    (∀ cs, format_progress_bar position total width = some cs → cs.length = width + 2) ∧
    format_progress_bar position 0 width = some [] ∧
    format_progress_bar 50 100 10 =
      some ['[', '=', '=', '=', '=', '=', '-', '-', '-', '-', '-', ']'] ∧
    format_progress_bar 0 0 10 = some [] := by
  have hle := floor_le_width_of_le position total width ht hp
  have hbar : format_progress_bar position total width =
      some ('[' ::
        (List.replicate ((Int.floor ((position : ℚ) / (total : ℚ) * (width : ℚ))).toNat) '=' ++
         List.replicate
           (width - (Int.floor ((position : ℚ) / (total : ℚ) * (width : ℚ))).toNat) '-')
        ++ [']']) := by
    simp [format_progress_bar, ht, hle]
  refine ⟨hbar, ?_, by simp [format_progress_bar], ?_, by simp [format_progress_bar]⟩
  · intro cs hcs
    rw [hbar] at hcs
    have hcs' := Option.some.inj hcs
    subst hcs'
    simp [List.length_replicate]
    omega
  · have h5 : Int.floor ((50 : ℚ) / 100 * 10) = 5 := by
      rw [Int.floor_eq_iff] <;> norm_num
    simp [format_progress_bar, h5]

/-- C4, witness for the amended theorem at `position = 50`, `total = 100`,
`width = 10`. -/
theorem c4_progress_bar_amended_witness :
    (format_progress_bar 50 100 10 =
      some ('[' ::
        (List.replicate ((Int.floor ((50 : ℚ) / (100 : ℚ) * (10 : ℚ))).toNat) '=' ++
         List.replicate
           (10 - (Int.floor ((50 : ℚ) / (100 : ℚ) * (10 : ℚ))).toNat) '-')
        ++ [']'])) ∧
    (∀ cs, format_progress_bar 50 100 10 = some cs → cs.length = 10 + 2) ∧
    format_progress_bar 50 0 10 = some [] ∧
    format_progress_bar 50 100 10 =
      some ['[', '=', '=', '=', '=', '=', '-', '-', '-', '-', '-', ']'] ∧
    format_progress_bar 0 0 10 = some [] :=
  c4_progress_bar_amended 50 100 10 (by norm_num) (by norm_num)

/-! ## Time formatting utilities (src/audio/utils.rs)

`TimeUtils::format_time(ms)` computes `total_seconds = ms / 1000`,
`minutes = total_seconds / 60`, `seconds = total_seconds % 60` and renders
`format!("{:02}:{:02}", minutes, seconds)`.  `TimeUtils::parse_time_str`
splits on `':'`, requires exactly two parts, parses both as `u64`
(which fails on an empty string, a non-digit, or overflow past
`2 ^ 64 - 1`, and accepts one optional leading `'+'`), rejects
`seconds >= 60` and returns `(minutes * 60 + seconds) * 1000`.
Strings are embedded as `List Char`; the decimal rendering of a number is
embedded fuel-style so that it computes by structural recursion. -/

def digit_char (d : Nat) : Char :=
  match d with
  | 0 => '0' | 1 => '1' | 2 => '2' | 3 => '3' | 4 => '4'
  | 5 => '5' | 6 => '6' | 7 => '7' | 8 => '8' | 9 => '9'
  | _ => '?'

def nat_to_chars_aux : Nat → Nat → List Char
  | 0, _ => []
  | fuel + 1, n =>
    if n < 10 then [digit_char n]
    else nat_to_chars_aux fuel (n / 10) ++ [digit_char (n % 10)]

/-- Decimal rendering of a natural number, as produced by `format!("{}", n)`. -/
def nat_to_chars (n : Nat) : List Char := nat_to_chars_aux (n + 1) n

/-- Zero padding to width two, as produced by the `{:02}` format spec. -/
def pad2 (cs : List Char) : List Char := List.replicate (2 - cs.length) '0' ++ cs

/-- `TimeUtils::format_time`. -/
def format_time (ms : Nat) : List Char :=
  let total_seconds := ms / 1000
  let minutes := total_seconds / 60
  let seconds := total_seconds % 60
  pad2 (nat_to_chars minutes) ++ ':' :: pad2 (nat_to_chars seconds)

def char_digit (c : Char) : Option Nat :=
  if '0' ≤ c ∧ c ≤ '9' then some (c.toNat - 48) else none

/-- The digit-accumulation loop of `u64::from_str`: checked
`acc * 10 + digit`, failing on a non-digit or on overflow past
`u64::MAX`. -/
def parse_u64_digits (acc : Nat) : List Char → Option Nat
  | [] => some acc
  | c :: rest =>
    match char_digit c with
    | none => none
    | some d =>
      let v := acc * 10 + d
      if v < 2 ^ 64 then parse_u64_digits v rest else none

def strip_leading_plus (cs : List Char) : List Char :=
  match cs with
  | c :: rest => if c = '+' then rest else cs
  | [] => []

/-- `str::parse::<u64>()`: an optional leading `'+'`, then at least one
digit, no overflow. -/
def parse_u64 (cs : List Char) : Option Nat :=
  let ds := strip_leading_plus cs
  if ds.isEmpty then none else parse_u64_digits 0 ds

/-- `str::split(':')` collected into a vector of parts. -/
def split_on_colon : List Char → List (List Char)
  | [] => [[]]
  | c :: rest =>
    if c = ':' then [] :: split_on_colon rest
    else
      match split_on_colon rest with
      | [] => [[c]]
      | g :: gs => (c :: g) :: gs

/-- `TimeUtils::parse_time_str`.  The two-element match embeds the
`parts.len() != 2` check; the final `% 2 ^ 64` embeds the wrapping `u64`
multiply-add of a release build (the values reached from `format_time`
output never wrap, which the round-trip theorem makes precise). -/
def parse_time_str (cs : List Char) : Option Nat :=
  match split_on_colon cs with
  | [minutes_str, seconds_str] =>
    match parse_u64 minutes_str, parse_u64 seconds_str with
    | some minutes, some seconds =>
      if 60 ≤ seconds then none
      else some ((minutes * 60 + seconds) * 1000 % 2 ^ 64)
    | _, _ => none
  | _ => none

theorem char_digit_digit_char (d : Nat) (hd : d < 10) :
    char_digit (digit_char d) = some d := by
  interval_cases d <;> decide

theorem digit_char_ne (d : Nat) (hd : d < 10) :
    digit_char d ≠ ':' ∧ digit_char d ≠ '+' := by
  interval_cases d <;> decide

theorem nat_to_chars_aux_digits :
    ∀ fuel n, ∀ c ∈ nat_to_chars_aux fuel n, ∃ d, d < 10 ∧ c = digit_char d := by
  intro fuel
  induction fuel with
  | zero => intro n c hc; simp [nat_to_chars_aux] at hc
  | succ fuel ih =>
    intro n c hc
    by_cases h : n < 10
    · simp [nat_to_chars_aux, h] at hc
      exact ⟨n, h, hc⟩
    · simp only [nat_to_chars_aux, if_neg h, List.mem_append, List.mem_singleton] at hc
      rcases hc with hc | hc
      · exact ih (n / 10) c hc
      · exact ⟨n % 10, Nat.mod_lt _ (by omega), hc⟩

theorem nat_to_chars_aux_ne_nil (fuel n : Nat) (hf : fuel ≠ 0) :
    nat_to_chars_aux fuel n ≠ [] := by
  cases fuel with
  | zero => omega
  | succ fuel =>
    by_cases h : n < 10 <;> simp [nat_to_chars_aux, h]

theorem parse_u64_digits_append (l1 l2 : List Char) (a : Nat) :
    parse_u64_digits a (l1 ++ l2) =
      (parse_u64_digits a l1).bind (fun b => parse_u64_digits b l2) := by
  induction l1 generalizing a with
  | nil => simp [parse_u64_digits]
  | cons c t iht =>
    simp only [List.cons_append, parse_u64_digits]
    cases char_digit c with
    | none => simp
    | some d =>
      simp only
      by_cases hv : a * 10 + d < 2 ^ 64
      · rw [if_pos hv, if_pos hv]
        exact iht _
      · rw [if_neg hv, if_neg hv]
        simp

theorem parse_u64_digits_nat_to_chars_aux :
    ∀ fuel n acc, n < fuel →
      acc * 10 ^ (nat_to_chars_aux fuel n).length + n < 2 ^ 64 →
      parse_u64_digits acc (nat_to_chars_aux fuel n) =
        some (acc * 10 ^ (nat_to_chars_aux fuel n).length + n) := by
  intro fuel
  induction fuel with
  | zero => omega
  | succ fuel ih =>
    intro n acc hn hbound
    by_cases h : n < 10
    · simp only [nat_to_chars_aux, if_pos h, List.length_singleton, pow_one] at hbound ⊢
      rw [parse_u64_digits, char_digit_digit_char n h]
      simp only [parse_u64_digits]
      rw [if_pos (by omega)]
    · have hlen : (nat_to_chars_aux (fuel + 1) n).length =
          (nat_to_chars_aux fuel (n / 10)).length + 1 := by
        simp [nat_to_chars_aux, if_neg h]
      have hdivlt : n / 10 < n := Nat.div_lt_self (by omega) (by omega)
      have hfuel : n / 10 < fuel := by omega
      have hsplit : (acc * 10 ^ (nat_to_chars_aux fuel (n / 10)).length + n / 10) * 10
          + n % 10
          = acc * 10 ^ (nat_to_chars_aux (fuel + 1) n).length + n := by
        rw [hlen, pow_succ]
        have := Nat.div_add_mod n 10
        ring_nf
        omega
      have hmid : acc * 10 ^ (nat_to_chars_aux fuel (n / 10)).length + n / 10 < 2 ^ 64 := by
        omega
      simp only [nat_to_chars_aux, if_neg h]
      have hrec := ih (n / 10) acc hfuel hmid
      rw [parse_u64_digits_append, hrec]
      simp only [Option.some_bind]
      rw [parse_u64_digits, char_digit_digit_char (n % 10) (Nat.mod_lt _ (by omega))]
      simp only [parse_u64_digits]
      rw [if_pos (by omega), hsplit]
      have haux : nat_to_chars_aux (fuel + 1) n =
          nat_to_chars_aux fuel (n / 10) ++ [digit_char (n % 10)] := by
        simp only [nat_to_chars_aux, if_neg h]
      rw [haux]

theorem strip_leading_plus_of_digits (cs : List Char)
    (hd : ∀ c ∈ cs, ∃ d, d < 10 ∧ c = digit_char d) :
    strip_leading_plus cs = cs := by
  cases cs with
  | nil => rfl
  | cons c rest =>
    obtain ⟨d, hdlt, hc⟩ := hd c (by simp)
    have : c ≠ '+' := hc ▸ (digit_char_ne d hdlt).2
    simp [strip_leading_plus, this]

theorem parse_u64_digits_replicate_zero :
    ∀ k (cs : List Char),
      parse_u64_digits 0 (List.replicate k '0' ++ cs) = parse_u64_digits 0 cs := by
  intro k
  induction k with
  | zero => intro cs; simp
  | succ k ih =>
    intro cs
    simp only [List.replicate_succ, List.cons_append, parse_u64_digits]
    norm_num [char_digit]
    exact ih cs

theorem pad2_digits (cs : List Char)
    (hd : ∀ c ∈ cs, ∃ d, d < 10 ∧ c = digit_char d) :
    ∀ c ∈ pad2 cs, ∃ d, d < 10 ∧ c = digit_char d := by
  intro c hc
  rw [pad2, List.mem_append] at hc
  rcases hc with hc | hc
  · rw [List.mem_replicate] at hc
    exact ⟨0, by omega, hc.2⟩
  · exact hd c hc

theorem parse_u64_pad2_nat_to_chars (n : Nat) (h : n < 2 ^ 64) :
    parse_u64 (pad2 (nat_to_chars n)) = some n := by
  have hdigits := nat_to_chars_aux_digits (n + 1) n
  have hne : nat_to_chars n ≠ [] := nat_to_chars_aux_ne_nil (n + 1) n (by omega)
  have hstrip : strip_leading_plus (pad2 (nat_to_chars n)) = pad2 (nat_to_chars n) :=
    strip_leading_plus_of_digits _ (pad2_digits _ hdigits)
  have hnonempty : (pad2 (nat_to_chars n)).isEmpty = false := by
    rw [pad2, List.isEmpty_eq_false_iff_exists_mem]
    cases hcs : nat_to_chars n with
    | nil => exact absurd hcs hne
    | cons c rest => exact ⟨c, by simp⟩
  rw [parse_u64]
  simp only [hstrip, hnonempty, Bool.false_eq_true, if_false]
  rw [pad2, parse_u64_digits_replicate_zero]
  have := parse_u64_digits_nat_to_chars_aux (n + 1) n 0 (by omega) (by simpa using h)
  simpa using this

theorem split_on_colon_no_colon (cs : List Char) (h : ':' ∉ cs) :
    split_on_colon cs = [cs] := by
  induction cs with
  | nil => rfl
  | cons c rest ih =>
    have hc : c ≠ ':' := fun he => h (he ▸ List.mem_cons_self c rest)
    have hrest : ':' ∉ rest := fun hm => h (List.mem_cons_of_mem c hm)
    rw [split_on_colon, if_neg hc, ih hrest]

theorem split_on_colon_append (a b : List Char) (ha : ':' ∉ a) :
    split_on_colon (a ++ ':' :: b) = a :: split_on_colon b := by
  induction a with
  | nil => simp [split_on_colon]
  | cons c rest ih =>
    have hc : c ≠ ':' := fun he => ha (he ▸ List.mem_cons_self c rest)
    have hrest : ':' ∉ rest := fun hm => ha (List.mem_cons_of_mem c hm)
    rw [List.cons_append, split_on_colon, if_neg hc, ih hrest]

theorem no_colon_pad2_nat_to_chars (n : Nat) : ':' ∉ pad2 (nat_to_chars n) := by
  intro hmem
  obtain ⟨d, hdlt, hc⟩ := pad2_digits _ (nat_to_chars_aux_digits (n + 1) n) ':' hmem
  exact (digit_char_ne d hdlt).1 hc.symm

/-- C10: round-trip of the time formatter.  For every `u64` millisecond value
`ms`, formatting with `format_time` and parsing back with `parse_time_str`
recovers `ms` truncated to whole seconds, `(ms / 1000) * 1000`, and none of
the `u64` arithmetic involved wraps. -/
theorem c10_time_round_trip (ms : Nat) (h : ms < 2 ^ 64) :
    parse_time_str (format_time ms) = some (ms / 1000 * 1000) := by
  have hmin_lt : ms / 1000 / 60 < 2 ^ 64 := by
    have h1 : ms / 1000 ≤ ms := Nat.div_le_self _ _
    have h2 : ms / 1000 / 60 ≤ ms / 1000 := Nat.div_le_self _ _
    omega
  have hsec_lt : ms / 1000 % 60 < 60 := Nat.mod_lt _ (by omega)
  have hform : format_time ms =
      pad2 (nat_to_chars (ms / 1000 / 60)) ++ ':' :: pad2 (nat_to_chars (ms / 1000 % 60)) := by
    simp only [format_time]
  have hsplit : split_on_colon (format_time ms) =
      [pad2 (nat_to_chars (ms / 1000 / 60)), pad2 (nat_to_chars (ms / 1000 % 60))] := by
    rw [hform, split_on_colon_append _ _ (no_colon_pad2_nat_to_chars _),
      split_on_colon_no_colon _ (no_colon_pad2_nat_to_chars _)]
  simp only [parse_time_str, hsplit, parse_u64_pad2_nat_to_chars _ hmin_lt,
    parse_u64_pad2_nat_to_chars _ (show ms / 1000 % 60 < 2 ^ 64 by omega)]
  rw [if_neg (by omega)]
  have hms : ms / 1000 / 60 * 60 + ms / 1000 % 60 = ms / 1000 := by omega
  rw [hms]
  have hnowrap : ms / 1000 * 1000 ≤ ms := Nat.div_mul_le_self _ _
  rw [Nat.mod_eq_of_lt (by omega)]

/-- C10, witness at `ms = 90500`: `"01:30"` parses back to `90000`. -/
theorem c10_time_round_trip_witness :
    parse_time_str (format_time 90500) = some (90500 / 1000 * 1000) :=
  c10_time_round_trip 90500 (by norm_num)

/-! ## ALAC decoder (src/audio/decoders/alac.rs and the `Alac` branch of
src/audio/decoder.rs)

Decoded `i32` packets are embedded as `List Int` (the `alac` crate's
`next_into` either yields one decoded packet, returns end-of-stream, or
fails; a failure is reported exactly like end-of-stream by the source, so
the packet list only models the successfully decoded prefix).  The two
normalization constants are shared by both files. -/

def I16_TO_F32_NORM_FACTOR : ℚ := 32768

def I32_TO_F32_NORM_FACTOR : ℚ := 2147483648

/-- Number of binary digits of `n` (fuel-style so that it computes by
structural recursion).  For a positive `i32` value `x` this equals
`32 - x.leading_zeros()`, the `bits_needed` of the source. -/
def bit_length_aux : Nat → Nat → Nat
  | 0, _ => 0
  | fuel + 1, n => if n = 0 then 0 else bit_length_aux fuel (n / 2) + 1

def bit_length (n : Nat) : Nat := bit_length_aux n n

/-- `decoded.iter().map(|&s| s.abs()).max().unwrap_or(0)`: all mapped values
are nonnegative, so folding `max` from `0` agrees with `.max().unwrap_or(0)`. -/
def list_max_abs (decoded : List Int) : Int :=
  (decoded.map (fun s => |s|)).foldl max 0

/-- `AlacDecoder::determine_normalization` (alac.rs), also the first-packet
analysis block of the `Alac` branch in decoder.rs: maps `bits_needed` ranges
`0..=16 → (0, 32768)`, `17..=24 → (8, 8388608)`, otherwise `(0, 2^31)`, and
defaults to the 32-bit profile when the packet is all zero. -/
def determine_normalization (decoded : List Int) : Nat × ℚ :=
  let max_abs := list_max_abs decoded
  if 0 < max_abs then
    let bits_needed := bit_length max_abs.toNat
    if bits_needed ≤ 16 then (0, I16_TO_F32_NORM_FACTOR)
    else if bits_needed ≤ 24 then (8, (8388608 : ℚ))
    else (0, I32_TO_F32_NORM_FACTOR)
  else (0, I32_TO_F32_NORM_FACTOR)

/-- Per-sample conversion used by both ALAC code paths:
`shifted = if shift > 0 { sample >> shift } else { sample }` (an arithmetic
shift on `i32`), then `(shifted as f32 / norm_factor).clamp(-1.0, 1.0)`. -/
def alac_convert (shift : Nat) (norm_factor : ℚ) (sample : Int) : ℚ :=
  let shifted := if 0 < shift then sample >>> shift else sample
  let normalized := (shifted : ℚ) / norm_factor
  min 1 (max (-1) normalized)

/-- State of `AlacDecoder` (alac.rs): remaining packets, the pending-sample
queue, and the stored normalization profile. -/
structure AlacDecoder where
  packets : List (List Int)
  buffer : List ℚ
  current_shift : Nat
  current_norm_factor : ℚ

/-- `AlacDecoder::load`: empty buffer, initial profile `(0, 2^31)`. -/
def AlacDecoder.load (packets : List (List Int)) : AlacDecoder :=
  { packets := packets, buffer := [], current_shift := 0,
    current_norm_factor := I32_TO_F32_NORM_FACTOR }

/-- `<AlacDecoder as Iterator>::next`.  Note the guard
`if self.buffer.is_empty()` around `determine_normalization`: it is
evaluated after the buffer has just been found empty (the `pop_front`
returned `None`), so it holds on every packet, not only the first. -/
def AlacDecoder.next (d : AlacDecoder) : Option ℚ × AlacDecoder :=
  match d.buffer with
  | s :: rest => (some s, { d with buffer := rest })
  | [] =>
    match d.packets with
    | [] => (none, d)
    | decoded :: rest_packets =>
      let d1 :=
        if d.buffer.isEmpty then
          let p := determine_normalization decoded
          { d with current_shift := p.1, current_norm_factor := p.2 }
        else d
      let converted := decoded.map (alac_convert d1.current_shift d1.current_norm_factor)
      match converted with
      | [] => (none, { d1 with packets := rest_packets, buffer := [] })
      | s :: buf => (some s, { d1 with packets := rest_packets, buffer := buf })

/-- `config.bit_depth()`-based profile of the (dead) else-branch of the
`Alac` arm in decoder.rs. -/
def bit_depth_profile (bit_depth : Nat) : Nat × ℚ :=
  match bit_depth with
  | 16 => (0, I16_TO_F32_NORM_FACTOR)
  | 24 => (8, (8388608 : ℚ))
  | _ => (0, I32_TO_F32_NORM_FACTOR)

/-- State of the `Alac` variant of the `AudioDecoder` enum (decoder.rs):
no stored profile, only the stream config's declared bit depth. -/
structure AlacState where
  packets : List (List Int)
  buffer : List ℚ
  bit_depth : Nat

/-- The `Alac` arm of `<AudioDecoder as Iterator>::next` (decoder.rs).  The
same vacuous `if buffer.is_empty()` guard selects the first-packet analysis
on every packet; the `bit_depth()`-based else-branch is unreachable. -/
def audio_decoder_alac_next (st : AlacState) : Option ℚ × AlacState :=
  match st.buffer with
  | s :: rest => (some s, { st with buffer := rest })
  | [] =>
    match st.packets with
    | [] => (none, st)
    | decoded :: rest_packets =>
      let converted :=
        if st.buffer.isEmpty then
          let p := determine_normalization decoded
          decoded.map (alac_convert p.1 p.2)
        else
          let p := bit_depth_profile st.bit_depth
          decoded.map (alac_convert p.1 p.2)
      match converted with
      | [] => (none, { st with packets := rest_packets, buffer := [] })
      | s :: buf => (some s, { st with packets := rest_packets, buffer := buf })

theorem determine_normalization_5000000 :
    determine_normalization [5000000] = (8, (8388608 : ℚ)) := by
  have habs : list_max_abs [5000000] = 5000000 := by
    simp [list_max_abs]
  have hbits : bit_length 5000000 = 23 := by decide
  simp [determine_normalization, habs, hbits]

theorem determine_normalization_100 :
    determine_normalization [100] = (0, (32768 : ℚ)) := by
  have habs : list_max_abs [100] = 100 := by
    simp [list_max_abs]
  have hbits : bit_length 100 = 7 := by decide
  simp [determine_normalization, habs, hbits, I16_TO_F32_NORM_FACTOR]

theorem alac_convert_8_5000000 :
    alac_convert 8 8388608 5000000 = 19531 / 8388608 := by
  have hshift : (5000000 : Int) >>> (8 : Nat) = 19531 := by decide
  simp only [alac_convert, if_pos (by omega : 0 < 8), hshift]
  norm_num

theorem alac_convert_0_100 :
    alac_convert 0 32768 100 = 100 / 32768 := by
  simp only [alac_convert, lt_irrefl, if_false]
  norm_num

theorem alac_convert_8_100 : alac_convert 8 8388608 100 = 0 := by
  have hshift : (100 : Int) >>> (8 : Nat) = 0 := by decide
  simp only [alac_convert, if_pos (by omega : 0 < 8), hshift]
  norm_num

/-- C1: the normalization profile is NOT fixed after the first packet.
On the stream whose first decoded packet is `[5000000]` (a 23-bit value,
profile `(shift 8, divisor 8388608)`) and whose second packet is `[100]`,
the first pull does store the 24-bit profile, but the second pull
re-evaluates `determine_normalization` — the `buffer.is_empty()` guard is
vacuously true whenever a packet is decoded — and converts the second packet
with the 16-bit profile, yielding `100 / 32768` where the first packet's
profile would yield `(100 >> 8) / 8388608 = 0`.  The dispatcher's `Alac`
branch (decoder.rs) behaves identically.  This contradicts the code's own
comments ("analyze the first packet", "use the same normalization for
subsequent packets"), so it is a bug in the code rather than in the spec. -/
theorem c1_alac_profile_reevaluated :
    ((AlacDecoder.load [[5000000], [100]]).next.snd.current_shift = 8 ∧
      (AlacDecoder.load [[5000000], [100]]).next.snd.current_norm_factor = 8388608) ∧
    (AlacDecoder.load [[5000000], [100]]).next.snd.next.fst = some (100 / 32768 : ℚ) ∧
    (audio_decoder_alac_next
      (audio_decoder_alac_next (⟨[[5000000], [100]], [], 24⟩ : AlacState)).snd).fst =
      some (100 / 32768 : ℚ) ∧
    alac_convert 8 8388608 100 = 0 ∧
    (100 / 32768 : ℚ) ≠ 0 := by
  have hstep1 : (AlacDecoder.load [[5000000], [100]]).next =
      (some (19531 / 8388608 : ℚ), (⟨[[100]], [], 8, 8388608⟩ : AlacDecoder)) := by
    simp [AlacDecoder.load, AlacDecoder.next, determine_normalization_5000000,
      alac_convert_8_5000000]
  have hstep2 : (⟨[[100]], [], 8, 8388608⟩ : AlacDecoder).next =
      (some (100 / 32768 : ℚ), (⟨[], [], 0, 32768⟩ : AlacDecoder)) := by
    simp [AlacDecoder.next, determine_normalization_100, alac_convert_0_100]
  have hd1 : audio_decoder_alac_next (⟨[[5000000], [100]], [], 24⟩ : AlacState) =
      (some (19531 / 8388608 : ℚ), (⟨[[100]], [], 24⟩ : AlacState)) := by
    simp [audio_decoder_alac_next, determine_normalization_5000000, alac_convert_8_5000000]
  have hd2 : audio_decoder_alac_next (⟨[[100]], [], 24⟩ : AlacState) =
      (some (100 / 32768 : ℚ), (⟨[], [], 24⟩ : AlacState)) := by
    simp [audio_decoder_alac_next, determine_normalization_100, alac_convert_0_100]
  refine ⟨⟨?_, ?_⟩, ?_, ?_, alac_convert_8_100, by norm_num⟩
  · rw [hstep1]
  · rw [hstep1]
  · rw [hstep1, hstep2]
  · rw [hd1, hd2]

/-! ## Seek/Skip adapter (`SkipDuration`, src/audio/decoder.rs)

A wrapped `Source` is embedded as its stream properties plus the list of
samples it will still yield; `next` is head/tail.  `SkipDuration::new`
computes
`samples_to_skip = (duration.as_secs_f32() * sample_rate as f32) as usize *
channels as usize`; the truncating nonnegative `f32`-to-`usize` cast is
embedded as `Int.floor ∘ Int.toNat` on the exact product. -/

structure SimpleSource (α : Type) where
  channels : Nat
  sample_rate : Nat
  current_frame_len : Option Nat
  total_duration : Option ℚ
  samples : List α

def SimpleSource.next {α : Type} (s : SimpleSource α) : Option α × SimpleSource α :=
  match s.samples with
  | [] => (none, s)
  | a :: rest => (some a, { s with samples := rest })

/-- The skip count of `SkipDuration::new`:
`floor(duration_secs * sample_rate) * channels`. -/
def samples_to_skip_count (duration_secs : ℚ) (sample_rate channels : Nat) : Nat :=
  (Int.floor (duration_secs * (sample_rate : ℚ))).toNat * channels

structure SkipDuration (α : Type) where
  source : SimpleSource α
  samples_to_skip : Nat
  samples_skipped : Nat

def SkipDuration.new {α : Type} (source : SimpleSource α) (duration_secs : ℚ) :
    SkipDuration α :=
  { source := source,
    samples_to_skip := samples_to_skip_count duration_secs source.sample_rate source.channels,
    samples_skipped := 0 }

/-- `<SkipDuration as Iterator>::next`: while `samples_skipped <
samples_to_skip`, pull and discard one upstream sample (returning `None` if
the upstream ends first), then forward one upstream pull. -/
def SkipDuration.next {α : Type} (s : SkipDuration α) : Option α × SkipDuration α :=
  if h : s.samples_skipped < s.samples_to_skip then
    match s.source.next with
    | (none, src1) => (none, { s with source := src1 })
    | (some _, src1) =>
      SkipDuration.next { s with source := src1, samples_skipped := s.samples_skipped + 1 }
  else
    match s.source.next with
    | (o, src1) => (o, { s with source := src1 })
termination_by s.samples_to_skip - s.samples_skipped
decreasing_by simp_wf; omega

/-- The `impl Source for SkipDuration` pass-through accessors. -/
def SkipDuration.channels {α : Type} (s : SkipDuration α) : Nat := s.source.channels

def SkipDuration.sample_rate {α : Type} (s : SkipDuration α) : Nat := s.source.sample_rate

def SkipDuration.current_frame_len {α : Type} (s : SkipDuration α) : Option Nat :=
  s.source.current_frame_len

def SkipDuration.total_duration {α : Type} (s : SkipDuration α) : Option ℚ :=
  s.source.total_duration

/-- Repeatedly pull from the adapter until it yields `none`; `fuel` bounds
the number of pulls (the upstream length always suffices). -/
def SkipDuration.pull_all {α : Type} (s : SkipDuration α) : Nat → List α
  | 0 => []
  | fuel + 1 =>
    match s.next with
    | (none, _) => []
    | (some a, s1) => a :: s1.pull_all fuel

theorem skip_next_spec {α : Type} :
    ∀ (n : Nat) (s : SkipDuration α), s.samples_to_skip - s.samples_skipped = n →
      (s.next.fst = s.source.samples.get? n ∧
        ∀ a, s.next.fst = some a →
          (s.next.snd.source.samples = s.source.samples.drop (n + 1) ∧
            s.next.snd.samples_to_skip ≤ s.next.snd.samples_skipped)) := by
  intro n
  induction n with
  | zero =>
    intro s hn
    have hge : ¬s.samples_skipped < s.samples_to_skip := by omega
    rw [SkipDuration.next, dif_neg hge]
    cases hsrc : s.source.samples with
    | nil =>
      have : s.source.next = (none, s.source) := by
        rw [SimpleSource.next, hsrc]
      simp [this, hsrc]
    | cons a rest =>
      have : s.source.next = (some a, { s.source with samples := rest }) := by
        rw [SimpleSource.next, hsrc]
      simp [this, hsrc]
      omega
  | succ n ih =>
    intro s hn
    have hlt : s.samples_skipped < s.samples_to_skip := by omega
    rw [SkipDuration.next, dif_pos hlt]
    cases hsrc : s.source.samples with
    | nil =>
      have : s.source.next = (none, s.source) := by
        rw [SimpleSource.next, hsrc]
      simp [this, hsrc]
    | cons a rest =>
      have hnext : s.source.next = (some a, { s.source with samples := rest }) := by
        rw [SimpleSource.next, hsrc]
      rw [hnext]
      have hrec := ih ⟨{ s.source with samples := rest }, s.samples_to_skip, s.samples_skipped + 1⟩ (by simp; omega)
      simp only at hrec
      rcases hrec with ⟨h1, h2⟩
      refine ⟨?_, ?_⟩
      · rw [h1]
        simp
      · intro b hb
        obtain ⟨h3, h4⟩ := h2 b hb
        refine ⟨?_, h4⟩
        rw [h3]
        simp

theorem skip_pull_all_eq {α : Type} :
    ∀ (fuel : Nat) (s : SkipDuration α),
      s.pull_all fuel =
        (s.source.samples.drop (s.samples_to_skip - s.samples_skipped)).take fuel := by
  intro fuel
  induction fuel with
  | zero => intro s; simp [SkipDuration.pull_all]
  | succ fuel ih =>
    intro s
    obtain ⟨h1, h2⟩ := skip_next_spec (s.samples_to_skip - s.samples_skipped) s rfl
    rw [SkipDuration.pull_all]
    cases hfst : s.next.fst with
    | none =>
      have hdrop : s.source.samples.drop (s.samples_to_skip - s.samples_skipped) = [] := by
        rw [hfst] at h1
        rw [List.drop_eq_nil_iff_le]
        by_contra hlt
        push_neg at hlt
        exact absurd (List.get?_eq_get hlt ▸ h1.symm) (by simp)
      rw [hdrop]
      cases hnx : s.next with
      | mk o s1 =>
        rw [hnx] at hfst
        simp only at hfst
        subst hfst
        simp
    | some a =>
      obtain ⟨h3, h4⟩ := h2 a hfst
      have hdrop : s.source.samples.drop (s.samples_to_skip - s.samples_skipped) =
          a :: s.source.samples.drop (s.samples_to_skip - s.samples_skipped + 1) := by
        rw [hfst] at h1
        have hlt : s.samples_to_skip - s.samples_skipped < s.source.samples.length := by
          by_contra hge
          push_neg at hge
          rw [List.get?_eq_none.2 hge] at h1
          exact absurd h1 (by simp)
        rw [List.drop_eq_get_cons hlt]
        congr 1
        have := List.get?_eq_get hlt
        rw [this] at h1
        exact (Option.some.inj h1.symm)
      rw [hdrop]
      have hrec := ih s.next.snd
      rw [h3] at hrec
      have hz : s.next.snd.samples_to_skip - s.next.snd.samples_skipped = 0 := by omega
      rw [hz, List.drop_zero] at hrec
      cases hnx : s.next with
      | mk o s1 =>
        rw [hnx] at hfst h3 hrec
        simp at hfst
        subst hfst
        simp [hrec]

/-- C3: the Seek/Skip adapter discards exactly
`N = floor(duration_secs * sample_rate) * channels` upstream samples before
yielding: its first output is the upstream's `(N+1)`-th sample (`none` when
`N ≥ L`), the complete output stream is the upstream with its first `N`
samples removed (so subsequent pulls are forwarded unchanged, and nothing is
yielded when `N ≥ L`), and channels, sample rate, frame length, and total
duration all pass through unmodified. -/
theorem c3_skip_duration_spec (α : Type) (src : SimpleSource α) (duration_secs : ℚ) :
    (SkipDuration.new src duration_secs).next.fst =
      src.samples.get? (samples_to_skip_count duration_secs src.sample_rate src.channels) ∧
    (SkipDuration.new src duration_secs).pull_all src.samples.length =
      src.samples.drop (samples_to_skip_count duration_secs src.sample_rate src.channels) ∧
    (SkipDuration.new src duration_secs).channels = src.channels ∧
    (SkipDuration.new src duration_secs).sample_rate = src.sample_rate ∧
    (SkipDuration.new src duration_secs).current_frame_len = src.current_frame_len ∧
    (SkipDuration.new src duration_secs).total_duration = src.total_duration ∧
    (SkipDuration.new src duration_secs).samples_to_skip =
      (Int.floor (duration_secs * (src.sample_rate : ℚ))).toNat * src.channels := by
  have h1 := (skip_next_spec
    ((SkipDuration.new src duration_secs).samples_to_skip -
      (SkipDuration.new src duration_secs).samples_skipped)
    (SkipDuration.new src duration_secs) rfl).1
  have h2 := skip_pull_all_eq src.samples.length (SkipDuration.new src duration_secs)
  simp only [SkipDuration.new, Nat.sub_zero] at h1 h2 ⊢
  refine ⟨h1, ?_, rfl, rfl, rfl, rfl, rfl⟩
  rw [h2, List.take_all_of_le]
  exact (List.length_drop _ _).le.trans (Nat.sub_le _ _)

/-! ## Format selector (`load_audio_file`, src/audio/decoder.rs)

Whether each backend's constructor would succeed on the given file is an
external fact, embedded as one boolean per backend (`load_alac_file`,
`load_opus_file`, `OggStreamReader::new`, `Decoder::new`,
`load_ffmpeg_file`), plus one for `File::open`.  The extension is the
file's extension (`None` when absent), lowercased by the code. -/

inductive Backend where
  | rodio | opus | vorbis | alac | ffmpeg
deriving DecidableEq

inductive LoadError where
  | ioError
  | backendError
deriving DecidableEq

structure OpenOutcomes where
  file_opens : Bool
  alac_ok : Bool
  opus_ok : Bool
  vorbis_ok : Bool
  rodio_ok : Bool
  ffmpeg_ok : Bool

/-- `load_ffmpeg_file`. -/
def load_ffmpeg_file (oc : OpenOutcomes) : Except LoadError Backend :=
  if oc.ffmpeg_ok then .ok .ffmpeg else .error .backendError

/-- `load_audio_file`: opens the file, lowercases the extension, and
dispatches with the fallback chains of the source. -/
def load_audio_file (ext : Option (List Char)) (oc : OpenOutcomes) :
    Except LoadError Backend :=
  if oc.file_opens = false then .error .ioError else
  let extension := ext.map (List.map Char.toLower)
  if extension = some ['m', '4', 'a'] then
    if oc.alac_ok then .ok .alac
    else if oc.opus_ok then .ok .opus
    else if oc.file_opens = false then .error .ioError
    else if oc.rodio_ok then .ok .rodio
    else load_ffmpeg_file oc
  else if extension = some ['o', 'p', 'u', 's'] then
    if oc.opus_ok then .ok .opus else .error .backendError
  else if extension = some ['o', 'g', 'g'] then
    if oc.vorbis_ok then .ok .vorbis else load_ffmpeg_file oc
  else
    if oc.rodio_ok then .ok .rodio else load_ffmpeg_file oc

/-- C5, counterexample: for an `.opus` file whose Opus open fails, the code
returns the Opus error directly — there is no FFmpeg fallback in the
`Some("opus")` arm — even when the FFmpeg backend would succeed. -/
theorem c5_opus_no_ffmpeg_fallback :
    load_audio_file (some ['o', 'p', 'u', 's'])
      ⟨true, false, false, false, false, true⟩ = .error .backendError ∧
    load_ffmpeg_file ⟨true, false, false, false, false, true⟩ = .ok .ffmpeg := by
  constructor
  · simp [load_audio_file]
  · simp [load_ffmpeg_file]

/-- C5, amended: the selector dispatches on the lowercased extension with
first success winning: `.m4a` tries ALAC, then Opus, then Generic-container,
then FFmpeg-fallback; `.ogg` tries Vorbis then FFmpeg-fallback; every other
extension (or a missing one) tries Generic-container then FFmpeg-fallback;
but `.opus` tries Opus only — an Opus open failure propagates as an error
with no FFmpeg fallback. -/
theorem c5_extension_dispatch (oc : OpenOutcomes) (hopen : oc.file_opens = true) :
    (load_audio_file (some ['m', '4', 'a']) oc =
      (if oc.alac_ok then .ok .alac
       else if oc.opus_ok then .ok .opus
       else if oc.rodio_ok then .ok .rodio
       else if oc.ffmpeg_ok then .ok .ffmpeg
       else .error .backendError)) ∧
    (load_audio_file (some ['o', 'p', 'u', 's']) oc =
      (if oc.opus_ok then .ok .opus else .error .backendError)) ∧
    (load_audio_file (some ['o', 'g', 'g']) oc =
      (if oc.vorbis_ok then .ok .vorbis
       else if oc.ffmpeg_ok then .ok .ffmpeg
       else .error .backendError)) ∧
    (∀ ext : Option (List Char),
      ext.map (List.map Char.toLower) ∉
        ([some ['m', '4', 'a'], some ['o', 'p', 'u', 's'], some ['o', 'g', 'g']] :
          List (Option (List Char))) →
      load_audio_file ext oc =
        (if oc.rodio_ok then .ok .rodio
         else if oc.ffmpeg_ok then .ok .ffmpeg
         else .error .backendError)) := by
  obtain ⟨fo, a, o, v, r, f⟩ := oc
  simp only at hopen
  subst hopen
  refine ⟨?_, ?_, ?_, ?_⟩
  · cases a <;> cases o <;> cases v <;> cases r <;> cases f <;> rfl
  · cases a <;> cases o <;> cases v <;> cases r <;> cases f <;> rfl
  · cases a <;> cases o <;> cases v <;> cases r <;> cases f <;> rfl
  · intro ext hext
    simp only [List.mem_cons, List.not_mem_nil, or_false] at hext
    push_neg at hext
    obtain ⟨h1, h2, h3⟩ := hext
    simp only [load_audio_file, load_ffmpeg_file]
    rw [if_neg (by decide), if_neg h1, if_neg h2, if_neg h3]

/-- C5, witness for the amended theorem: with only FFmpeg succeeding, `.m4a`
falls through to FFmpeg, `.opus` is an error, `.ogg` falls through to
FFmpeg, and `.mp3` falls through to FFmpeg. -/
theorem c5_extension_dispatch_witness :
    (load_audio_file (some ['m', '4', 'a']) ⟨true, false, false, false, false, true⟩ =
      (if false then .ok .alac
       else if false then .ok .opus
       else if false then .ok .rodio
       else if true then .ok .ffmpeg
       else .error .backendError)) ∧
    (load_audio_file (some ['o', 'p', 'u', 's']) ⟨true, false, false, false, false, true⟩ =
      (if false then .ok .opus else .error .backendError)) ∧
    (load_audio_file (some ['o', 'g', 'g']) ⟨true, false, false, false, false, true⟩ =
      (if false then .ok .vorbis
       else if true then .ok .ffmpeg
       else .error .backendError)) ∧
    (∀ ext : Option (List Char),
      ext.map (List.map Char.toLower) ∉
        ([some ['m', '4', 'a'], some ['o', 'p', 'u', 's'], some ['o', 'g', 'g']] :
          List (Option (List Char))) →
      load_audio_file ext ⟨true, false, false, false, false, true⟩ =
        (if false then .ok .rodio
         else if true then .ok .ffmpeg
         else .error .backendError)) :=
  c5_extension_dispatch ⟨true, false, false, false, false, true⟩ rfl

/-! ## Vorbis decoder (src/audio/decoders/vorbis.rs and the `Vorbis` branch
of src/audio/decoder.rs)

`read_dec_packet_itl()` returns `Ok(Some(samples))` (interleaved `i16`
samples), `Ok(None)` (end of stream) or `Err(..)`; the sequence of results
the reader will produce is embedded as a list of outcomes, with the empty
list standing for a reader that reports end of stream.  The two files use
different normalization constants: vorbis.rs divides by `i16::MAX as f32 =
32767`, decoder.rs divides by its `I16_TO_F32_NORM_FACTOR = 32768`. -/

inductive VorbisRead where
  | packet (samples : List Int)
  | eos
  | readFailed

/-- `I16_TO_F32_NORM_FACTOR` of vorbis.rs: `i16::MAX as f32`. -/
def VORBIS_I16_TO_F32_NORM_FACTOR : ℚ := 32767

structure VorbisDecoder where
  packets : List VorbisRead
  sample_buffer : List ℚ
  ident_audio_channels : Nat
  ident_audio_sample_rate : Nat

/-- The `while sample_buffer.is_empty()` packet loop shared by both Vorbis
code paths, parameterized by the normalization divisor: convert and enqueue
the next nonempty decoded packet, or stop on end of stream / error.  Returns
the filled queue (`none` if the pull must return `None`) and the remaining
reader state. -/
def vorbis_decode_loop (norm : ℚ) : List VorbisRead → Option (List ℚ) × List VorbisRead
  | [] => (none, [])
  | .packet pck :: rest =>
    let converted := pck.map (fun s => (s : ℚ) / norm)
    if converted.isEmpty then vorbis_decode_loop norm rest
    else (some converted, rest)
  | .eos :: rest => (none, rest)
  | .readFailed :: rest => (none, rest)

/-- `<VorbisDecoder as Iterator>::next` (vorbis.rs): divisor 32767. -/
def VorbisDecoder.next (d : VorbisDecoder) : Option ℚ × VorbisDecoder :=
  match d.sample_buffer with
  | s :: rest => (some s, { d with sample_buffer := rest })
  | [] =>
    match vorbis_decode_loop VORBIS_I16_TO_F32_NORM_FACTOR d.packets with
    | (some (s :: buf), rest) => (some s, { d with packets := rest, sample_buffer := buf })
    | (some [], rest) => (none, { d with packets := rest, sample_buffer := [] })
    | (none, rest) => (none, { d with packets := rest })

/-- The `Vorbis` arm of `<AudioDecoder as Iterator>::next` (decoder.rs):
identical control flow but divisor `I16_TO_F32_NORM_FACTOR = 32768`. -/
def audio_decoder_vorbis_next (d : VorbisDecoder) : Option ℚ × VorbisDecoder :=
  match d.sample_buffer with
  | s :: rest => (some s, { d with sample_buffer := rest })
  | [] =>
    match vorbis_decode_loop I16_TO_F32_NORM_FACTOR d.packets with
    | (some (s :: buf), rest) => (some s, { d with packets := rest, sample_buffer := buf })
    | (some [], rest) => (none, { d with packets := rest, sample_buffer := [] })
    | (none, rest) => (none, { d with packets := rest })

/-- `impl Source for VorbisDecoder` (and the matching arms in decoder.rs):
channel count and sample rate from the identification header, frame length
unknown. -/
def VorbisDecoder.channels (d : VorbisDecoder) : Nat := d.ident_audio_channels

def VorbisDecoder.sample_rate (d : VorbisDecoder) : Nat := d.ident_audio_sample_rate

def VorbisDecoder.current_frame_len (_d : VorbisDecoder) : Option Nat := none

/-- C6, counterexample: the dispatcher's Vorbis branch (decoder.rs, one of
the two code sites this claim cites) divides by 32768, not 32767: on a
packet containing the sample `32767` it yields `32767 / 32768`, which
differs from the claimed `32767 / 32767 = 1`. -/
theorem c6_vorbis_divisor_counterexample :
    (audio_decoder_vorbis_next ⟨[.packet [32767]], [], 2, 44100⟩).fst =
      some (32767 / 32768 : ℚ) ∧
    (32767 / 32768 : ℚ) ≠ (32767 : ℚ) / 32767 := by
  constructor
  · simp [audio_decoder_vorbis_next, vorbis_decode_loop, I16_TO_F32_NORM_FACTOR]
  · norm_num

/-- C6, amended: the standalone Vorbis backend (vorbis.rs) divides each
decoded integer sample by 32767 before enqueueing it, while the unified
dispatcher's Vorbis branch (decoder.rs) divides by 32768; both report the
channel count and sample rate from the stream's identification header and
report the frame length as unknown. -/
theorem c6_vorbis_conversion (pck : List Int) (rest : List VorbisRead)
    (ch sr : Nat) (hne : pck ≠ []) :
    (VorbisDecoder.next ⟨.packet pck :: rest, [], ch, sr⟩).fst =
      (pck.map (fun s => (s : ℚ) / 32767)).head? ∧
    (VorbisDecoder.next ⟨.packet pck :: rest, [], ch, sr⟩).snd.sample_buffer =
      (pck.map (fun s => (s : ℚ) / 32767)).tail ∧
    (audio_decoder_vorbis_next ⟨.packet pck :: rest, [], ch, sr⟩).fst =
      (pck.map (fun s => (s : ℚ) / 32768)).head? ∧
    (audio_decoder_vorbis_next ⟨.packet pck :: rest, [], ch, sr⟩).snd.sample_buffer =
      (pck.map (fun s => (s : ℚ) / 32768)).tail ∧
    VorbisDecoder.channels ⟨.packet pck :: rest, [], ch, sr⟩ = ch ∧
    VorbisDecoder.sample_rate ⟨.packet pck :: rest, [], ch, sr⟩ = sr ∧
    VorbisDecoder.current_frame_len ⟨.packet pck :: rest, [], ch, sr⟩ = none := by
  cases pck with
  | nil => exact absurd rfl hne
  | cons a t =>
    refine ⟨?_, ?_, ?_, ?_, rfl, rfl, rfl⟩ <;>
      simp [VorbisDecoder.next, audio_decoder_vorbis_next, vorbis_decode_loop,
        VORBIS_I16_TO_F32_NORM_FACTOR, I16_TO_F32_NORM_FACTOR, VorbisDecoder.channels,
        VorbisDecoder.sample_rate, VorbisDecoder.current_frame_len]

/-- C6, witness for the amended theorem on the one-sample packet `[32767]`. -/
theorem c6_vorbis_conversion_witness :
    (VorbisDecoder.next ⟨.packet [32767] :: [], [], 2, 44100⟩).fst =
      (([32767] : List Int).map (fun s => (s : ℚ) / 32767)).head? ∧
    (VorbisDecoder.next ⟨.packet [32767] :: [], [], 2, 44100⟩).snd.sample_buffer =
      (([32767] : List Int).map (fun s => (s : ℚ) / 32767)).tail ∧
    (audio_decoder_vorbis_next ⟨.packet [32767] :: [], [], 2, 44100⟩).fst =
      (([32767] : List Int).map (fun s => (s : ℚ) / 32768)).head? ∧
    (audio_decoder_vorbis_next ⟨.packet [32767] :: [], [], 2, 44100⟩).snd.sample_buffer =
      (([32767] : List Int).map (fun s => (s : ℚ) / 32768)).tail ∧
    VorbisDecoder.channels ⟨.packet [32767] :: [], [], 2, 44100⟩ = 2 ∧
    VorbisDecoder.sample_rate ⟨.packet [32767] :: [], [], 2, 44100⟩ = 44100 ∧
    VorbisDecoder.current_frame_len ⟨.packet [32767] :: [], [], 2, 44100⟩ = none :=
  c6_vorbis_conversion [32767] [] 2 44100 (by simp)

/-! ## Per-sample conversions of the remaining pull paths

From the `Rodio` arm of decoder.rs, and from the three sample-format arms of
the FFmpeg decode loop (decoder.rs): 16-bit and 32-bit integer samples are
divided by `32768` and `2^31` respectively, float samples are pushed
unchanged.  None of these paths clamps. -/

def audio_decoder_rodio_sample (s : Int) : ℚ := (s : ℚ) / I16_TO_F32_NORM_FACTOR

def ffmpeg_i16_sample (s : Int) : ℚ := (s : ℚ) / I16_TO_F32_NORM_FACTOR

def ffmpeg_i32_sample (s : Int) : ℚ := (s : ℚ) / I32_TO_F32_NORM_FACTOR

def ffmpeg_f32_sample (x : ℚ) : ℚ := x

def vorbis_sample (s : Int) : ℚ := (s : ℚ) / VORBIS_I16_TO_F32_NORM_FACTOR

/-- C7, counterexample: samples are not all in `[-1, 1]`.  The standalone
Vorbis backend divides by `32767`, so pulling a packet that contains the
minimal `i16` sample `-32768` yields `-32768 / 32767 < -1`. -/
theorem c7_sample_range_counterexample :
    (VorbisDecoder.next ⟨[.packet [-32768]], [], 2, 44100⟩).fst =
      some (-32768 / 32767 : ℚ) ∧
    (-32768 / 32767 : ℚ) < -1 := by
  constructor
  · simp [VorbisDecoder.next, vorbis_decode_loop, VORBIS_I16_TO_F32_NORM_FACTOR]
  · norm_num

/-- C7, amended: the divisor-32768 integer conversions (the dispatcher's
Rodio arm and the FFmpeg I16/I32 arms) map the full `i16` / `i32` range into
`[-1, 1]`, and the clamping ALAC conversion always lands in `[-1, 1]`; but
the standalone Vorbis conversion (divisor 32767) only lands in
`[-32768/32767, 1]`, exceeding `-1` at the minimal sample, and the FFmpeg
`F32` arm (like the Opus decode path) forwards decoder output unclamped, so
no `[-1, 1]` guarantee exists on those paths. -/
theorem c7_sample_range_amended :
    (∀ s : Int, -32768 ≤ s → s ≤ 32767 →
      -1 ≤ audio_decoder_rodio_sample s ∧ audio_decoder_rodio_sample s ≤ 1) ∧
    (∀ s : Int, -32768 ≤ s → s ≤ 32767 →
      -1 ≤ ffmpeg_i16_sample s ∧ ffmpeg_i16_sample s ≤ 1) ∧
    (∀ s : Int, -2147483648 ≤ s → s ≤ 2147483647 →
      -1 ≤ ffmpeg_i32_sample s ∧ ffmpeg_i32_sample s ≤ 1) ∧
    (∀ (shift : Nat) (nf : ℚ) (s : Int),
      -1 ≤ alac_convert shift nf s ∧ alac_convert shift nf s ≤ 1) ∧
    (∀ s : Int, -32768 ≤ s → s ≤ 32767 →
      -(32768 / 32767 : ℚ) ≤ vorbis_sample s ∧ vorbis_sample s ≤ 1) ∧
    (∀ x : ℚ, ffmpeg_f32_sample x = x) := by
  have hdiv16 : ∀ s : Int, -32768 ≤ s → s ≤ 32767 →
      -1 ≤ (s : ℚ) / 32768 ∧ (s : ℚ) / 32768 ≤ 1 := by
    intro s h1 h2
    have hs1 : (-32768 : ℚ) ≤ (s : ℚ) := by exact_mod_cast h1
    have hs2 : (s : ℚ) ≤ 32767 := by exact_mod_cast h2
    constructor
    · rw [le_div_iff (by norm_num : (0 : ℚ) < 32768)]
      linarith
    · rw [div_le_one (by norm_num : (0 : ℚ) < 32768)]
      linarith
  refine ⟨?_, ?_, ?_, ?_, ?_, fun _ => rfl⟩
  · intro s h1 h2
    exact hdiv16 s h1 h2
  · intro s h1 h2
    exact hdiv16 s h1 h2
  · intro s h1 h2
    have hs1 : (-2147483648 : ℚ) ≤ (s : ℚ) := by exact_mod_cast h1
    have hs2 : (s : ℚ) ≤ 2147483647 := by exact_mod_cast h2
    unfold ffmpeg_i32_sample I32_TO_F32_NORM_FACTOR
    constructor
    · rw [le_div_iff (by norm_num : (0 : ℚ) < 2147483648)]
      linarith
    · rw [div_le_one (by norm_num : (0 : ℚ) < 2147483648)]
      linarith
  · intro shift nf s
    unfold alac_convert
    constructor
    · exact le_min (by norm_num) (le_max_left _ _)
    · exact min_le_left _ _
  · intro s h1 h2
    have hs1 : (-32768 : ℚ) ≤ (s : ℚ) := by exact_mod_cast h1
    have hs2 : (s : ℚ) ≤ 32767 := by exact_mod_cast h2
    unfold vorbis_sample VORBIS_I16_TO_F32_NORM_FACTOR
    constructor
    · rw [show -(32768 / 32767 : ℚ) = (-32768 : ℚ) / 32767 by norm_num,
        div_le_div_right (by norm_num : (0 : ℚ) < 32767)]
      exact hs1
    · rw [div_le_one (by norm_num : (0 : ℚ) < 32767)]
      linarith

/-- C7, witness for the amended theorem at the extreme samples
`s = -32768` and `s = -2147483648`. -/
theorem c7_sample_range_witness :
    (-1 ≤ audio_decoder_rodio_sample (-32768) ∧
      audio_decoder_rodio_sample (-32768) ≤ 1) ∧
    (-1 ≤ ffmpeg_i32_sample (-2147483648) ∧ ffmpeg_i32_sample (-2147483648) ≤ 1) ∧
    (-(32768 / 32767 : ℚ) ≤ vorbis_sample (-32768) ∧ vorbis_sample (-32768) ≤ 1) :=
  ⟨c7_sample_range_amended.1 (-32768) (by norm_num) (by norm_num),
    c7_sample_range_amended.2.2.1 (-2147483648) (by norm_num) (by norm_num),
    c7_sample_range_amended.2.2.2.2.1 (-32768) (by norm_num) (by norm_num)⟩

/-! ## Opus decoder open (src/audio/decoders/opus.rs, `load_opus_file` in
src/audio/decoder.rs)

`PacketReader::read_packet()` returns `Ok(Some(packet))`, `Ok(None)` or
`Err(..)`; the sequence the reader will produce is embedded as a list
of outcomes, with the exhausted list standing for `Ok(None)`.  `load`
reads the identification packet and the comment packet, failing with
"Missing Opus header" / "Missing Opus comments" when a read yields no
packet, then builds the decoder (48 kHz stereo; its construction may fail). -/

inductive OggReadOutcome where
  | packet (data : List Nat)
  | eos
  | readFailed

inductive OpusLoadError where
  | ioError
  | oggError
  | missingOpusHeader
  | missingOpusComments
  | decoderInitFailed
deriving DecidableEq

def read_packet : List OggReadOutcome →
    Except Unit (Option (List Nat)) × List OggReadOutcome
  | [] => (.ok none, [])
  | .packet d :: rest => (.ok (some d), rest)
  | .eos :: rest => (.ok none, rest)
  | .readFailed :: rest => (.error (), rest)

structure DecoderOpus where
  packet_reader : List OggReadOutcome
  sample_buffer : List ℚ

/-- `DecoderOpus::load` (opus.rs; `load_opus_file` in decoder.rs is
identical): two header reads, then `OpusDecoder::new(48000, Stereo)`. -/
def DecoderOpus.load (file_opens : Bool) (outcomes : List OggReadOutcome)
    (decoder_init_ok : Bool) : Except OpusLoadError DecoderOpus :=
  if file_opens = false then .error .ioError else
  match read_packet outcomes with
  | (.error _, _) => .error .oggError
  | (.ok none, _) => .error .missingOpusHeader
  | (.ok (some _), rest1) =>
    match read_packet rest1 with
    | (.error _, _) => .error .oggError
    | (.ok none, _) => .error .missingOpusComments
    | (.ok (some _), rest2) =>
      if decoder_init_ok then .ok ⟨rest2, []⟩ else .error .decoderInitFailed

/-- `impl Source for DecoderOpus`: fixed stream properties. -/
def DecoderOpus.channels (_d : DecoderOpus) : Nat := 2

def DecoderOpus.sample_rate (_d : DecoderOpus) : Nat := 48000

def DecoderOpus.current_frame_len (_d : DecoderOpus) : Option Nat := some 960

/-- C8: `load` succeeds only when the first two reads both yield packets
(and the decoder constructor succeeds); a missing first or second packet
fails with the corresponding missing-header error; and every successfully
opened Opus source reports 48000 Hz, 2 channels, and frame length 960. -/
theorem c8_opus_load_headers :
    (∀ (outcomes : List OggReadOutcome) (init_ok : Bool) (d : DecoderOpus),
      DecoderOpus.load true outcomes init_ok = .ok d →
        (∃ p1 p2 rest, outcomes = .packet p1 :: .packet p2 :: rest) ∧ init_ok = true) ∧
    (∀ init_ok, DecoderOpus.load true [] init_ok = .error .missingOpusHeader) ∧
    (∀ rest init_ok,
      DecoderOpus.load true (.eos :: rest) init_ok = .error .missingOpusHeader) ∧
    (∀ p1 init_ok,
      DecoderOpus.load true [.packet p1] init_ok = .error .missingOpusComments) ∧
    (∀ p1 rest init_ok,
      DecoderOpus.load true (.packet p1 :: .eos :: rest) init_ok =
        .error .missingOpusComments) ∧
    (∀ d : DecoderOpus,
      d.channels = 2 ∧ d.sample_rate = 48000 ∧ d.current_frame_len = some 960) := by
  refine ⟨?_, ?_, ?_, ?_, ?_, fun d => ⟨rfl, rfl, rfl⟩⟩
  · intro outcomes init_ok d hok
    match outcomes with
    | [] => simp [DecoderOpus.load, read_packet] at hok
    | .eos :: rest => simp [DecoderOpus.load, read_packet] at hok
    | .readFailed :: rest => simp [DecoderOpus.load, read_packet] at hok
    | .packet p1 :: rest1 =>
      match rest1 with
      | [] => simp [DecoderOpus.load, read_packet] at hok
      | .eos :: rest => simp [DecoderOpus.load, read_packet] at hok
      | .readFailed :: rest => simp [DecoderOpus.load, read_packet] at hok
      | .packet p2 :: rest2 =>
        refine ⟨⟨p1, p2, rest2, rfl⟩, ?_⟩
        by_contra hinit
        have : init_ok = false := by
          cases init_ok
          · rfl
          · exact absurd rfl hinit
        rw [this] at hok
        simp [DecoderOpus.load, read_packet] at hok
  · intro init_ok
    simp [DecoderOpus.load, read_packet]
  · intro rest init_ok
    simp [DecoderOpus.load, read_packet]
  · intro p1 init_ok
    simp [DecoderOpus.load, read_packet]
  · intro p1 rest init_ok
    simp [DecoderOpus.load, read_packet]

/-- C8, witness: a reader with two packets and a successful decoder
constructor opens successfully; the header-absence cases produce the two
missing-header errors; the opened source reports the fixed properties. -/
theorem c8_opus_load_headers_witness :
    ((∃ p1 p2 rest,
      ([.packet [1], .packet [2]] : List OggReadOutcome) =
        .packet p1 :: .packet p2 :: rest) ∧ true = true) ∧
    DecoderOpus.load true [] true = .error .missingOpusHeader ∧
    DecoderOpus.load true [.packet [1]] true = .error .missingOpusComments ∧
    ((⟨[], []⟩ : DecoderOpus).channels = 2 ∧
      (⟨[], []⟩ : DecoderOpus).sample_rate = 48000 ∧
      (⟨[], []⟩ : DecoderOpus).current_frame_len = some 960) :=
  ⟨c8_opus_load_headers.1 [.packet [1], .packet [2]] true ⟨[], []⟩ rfl,
    c8_opus_load_headers.2.1 true,
    c8_opus_load_headers.2.2.2.1 [1] true,
    c8_opus_load_headers.2.2.2.2.2 ⟨[], []⟩⟩

/-! ## Playback transport (`AudioPlayer`, src/audio/player.rs)

The transport state is the fields of `AudioPlayer` that the claims touch:
the sink's queue length (`sink.len()`, with `sink.empty()` ⟺ length zero),
the `is_playing` / `is_paused` atomics, the current position (u64 ms), the
optional total duration (ms), the playback anchor and pause-start instants
(embedded as integer points on a millisecond timeline), the accumulated
pause duration, and whether a file path has been set.  External failures
(file open, `Decoder::new`, `Sink::try_new`) are boolean outcome
parameters; `now` is the current `Instant`. -/

structure AudioPlayer where
  sink_len : Nat
  is_playing : Bool
  is_paused : Bool
  current_position : Nat
  total_duration : Option Nat
  playback_start : Option Int
  pause_start : Option Int
  total_pause_duration : Nat
  file_path_set : Bool

structure PlayEnv where
  file_opens : Bool
  decoder_new_ok : Bool
  sink_new_ok : Bool

/-- `AudioPlayer::create_decoder`: requires a stored path, then opens the
file and builds a rodio decoder; both steps can fail. -/
def create_decoder (p : AudioPlayer) (env : PlayEnv) : Except String Unit :=
  if p.file_path_set = false then .error "No file path set"
  else if env.file_opens = false then .error "Failed to open file"
  else if env.decoder_new_ok = false then .error "Failed to create decoder"
  else .ok ()

/-- `AudioPlayer::play_from_position`.  The bounds check runs first: when a
total duration is known and `position_ms` reaches it, the method stores
`false` into the `is_playing` flag and returns an error, leaving everything
else untouched.  Otherwise it rebuilds the decoder and sink (each failure
returns an error without state change), replaces the sink's queued audio
with the one skipped source, resets the anchor to `now - position_ms` and
clears the pause bookkeeping. -/
def play_from_position (p : AudioPlayer) (env : PlayEnv) (now : Int)
    (position_ms : Nat) : Except String Unit × AudioPlayer :=
  if (match p.total_duration with
      | some total_ms => decide (total_ms ≤ position_ms)
      | none => false) then
    (.error "Cannot seek beyond end of track", { p with is_playing := false })
  else
    match create_decoder p env with
    | .error e => (.error e, p)
    | .ok _ =>
      if env.sink_new_ok = false then (.error "Failed to create sink", p)
      else
        (.ok (), { p with
          sink_len := 1,
          playback_start := some (now - (position_ms : Int)),
          pause_start := none,
          total_pause_duration := 0,
          current_position := position_ms,
          is_playing := true,
          is_paused := false })

/-- The `u64` target computation of `AudioPlayer::seek`:
`current_pos.saturating_sub(offset.unsigned_abs() * 1000)` for a negative
offset, `current_pos.saturating_add(offset as u64 * 1000)` otherwise; the
multiplication wraps modulo `2 ^ 64` in a release build, the saturating
operations clamp into the `u64` range. -/
def seek_target (current_pos : Nat) (offset_seconds : Int) : Nat :=
  if offset_seconds < 0 then
    current_pos - (offset_seconds.natAbs * 1000) % 2 ^ 64
  else
    min (current_pos + (offset_seconds.toNat * 1000) % 2 ^ 64) (2 ^ 64 - 1)

/-- `AudioPlayer::seek`: computes the saturated target and delegates to
`play_from_position`; the rest of the method only prints. -/
def AudioPlayer.seek (p : AudioPlayer) (env : PlayEnv) (now : Int)
    (offset_seconds : Int) : Except String Unit × AudioPlayer :=
  let current_pos := p.current_position
  let new_pos := seek_target current_pos offset_seconds
  match play_from_position p env now new_pos with
  | (.error e, p1) => (.error e, p1)
  | (.ok _, p1) => (.ok (), p1)

/-- `AudioPlayer::is_playing` (the method; the flag of the same name is the
`is_playing` field): paused sessions count as active; otherwise the result
is `sink_active && flag`, and a drained sink clears the flag as a side
effect. -/
def AudioPlayer.is_playing_query (p : AudioPlayer) : Bool × AudioPlayer :=
  if p.is_paused then (true, p)
  else
    let sink_active := !decide (p.sink_len = 0) && decide (0 < p.sink_len)
    let currently_playing := p.is_playing
    let playing := sink_active && currently_playing
    if !playing && currently_playing then
      (playing, { p with is_playing := false })
    else
      (playing, p)

/-- The transport state used for the C2 counterexample: playing, position 0,
total duration 1000 ms. -/
def c2_player : AudioPlayer :=
  ⟨3, true, false, 0, some 1000, some 0, none, 0, true⟩

def c2_env : PlayEnv := ⟨true, true, true⟩

/-- C2, counterexample: a rejected seek does NOT leave the transport state
unchanged.  From a playing state with total duration 1000 ms, `seek(+2)`
targets 2000 ms ≥ 1000 ms: the call returns the expected error, but it also
stores `false` into the `is_playing` flag, which was `true` before the
call. -/
theorem c2_rejected_seek_counterexample :
    (c2_player.seek c2_env 0 2).fst = .error "Cannot seek beyond end of track" ∧
    c2_player.is_playing = true ∧
    (c2_player.seek c2_env 0 2).snd.is_playing = false := by
  have htarget : seek_target 0 2 = 2000 := by decide
  refine ⟨?_, rfl, ?_⟩ <;>
    simp [AudioPlayer.seek, play_from_position, c2_player, htarget]

/-- C2, amended: when a total duration is known and the computed seek target
reaches it, `seek` returns the out-of-range error and leaves the current
position, the paused flag, the pause bookkeeping, the anchor, and the sink
untouched — but it stores `false` into the playing flag (so the state is not
fully unchanged: the session flag is cleared). -/
theorem c2_rejected_seek_amended (p : AudioPlayer) (env : PlayEnv) (now : Int)
    (offset_seconds : Int) (total_ms : Nat)
    (hdur : p.total_duration = some total_ms)
    (hge : total_ms ≤ seek_target p.current_position offset_seconds) :
    p.seek env now offset_seconds =
      (.error "Cannot seek beyond end of track", { p with is_playing := false }) := by
  have hcond : (match p.total_duration with
      | some total_ms => decide (total_ms ≤ seek_target p.current_position offset_seconds)
      | none => false) = true := by
    rw [hdur]
    simpa using hge
  simp only [AudioPlayer.seek, play_from_position]
  rw [if_pos hcond]

/-- C2, witness for the amended theorem at the counterexample state. -/
theorem c2_rejected_seek_amended_witness :
    c2_player.seek c2_env 0 2 =
      (.error "Cannot seek beyond end of track",
        { c2_player with is_playing := false }) :=
  c2_rejected_seek_amended c2_player c2_env 0 2 1000 rfl (by decide)

/-- C9: the `is_playing` query returns `true` whenever the paused flag is
set (leaving the state untouched); otherwise it returns `true` exactly when
the sink still has queued audio and the session flag is set; and the stored
session flag after the call is the old flag AND (paused OR sink non-empty) —
i.e. the only side effect is clearing the flag when the sink has drained
while the flag was still set, in which case the call returns `false`. -/
theorem c9_is_playing_query (p : AudioPlayer) :
    (p.is_playing_query.fst = (p.is_paused || (decide (0 < p.sink_len) && p.is_playing))) ∧
    (p.is_playing_query.snd =
      { p with is_playing := p.is_playing && (p.is_paused || decide (0 < p.sink_len)) }) := by
  obtain ⟨len, playing, paused, pos, dur, anchor, ps, tpd, fps⟩ := p
  cases paused <;> cases playing <;> cases len <;>
    simp [AudioPlayer.is_playing_query]

end MusicPlayer
